import Mathlib

/-!
Verification of the incremental ingestion pipeline of
`dags/DB_Raw_Ingestion/DB_Raw_Ingestion.py` (class `DB_Raw_Ingestion`).

The Python source is shallowly embedded: strings are `String` (lists of
characters underneath), the regular-expression operations of the source are
translated into explicit leftmost-match scans over `List Char`, and the
side-effecting orchestration (`ingest_data`) becomes a pure interpreter over
an explicit environment that decides the outcome of every external call
(object-store upload, warehouse statement execution, clock reads).
-/

set_option maxRecDepth 4096

namespace DBRawIngestion

/-! ## Filename normalizer (`_get_base_filename`, source lines 207-223)

The source searches the filename for the regex pattern underscore followed by
8 digits and, on a match, returns the slice of the filename before the match
start with `.csv` appended; otherwise it returns the input unchanged.  `dateHere l` decides whether the pattern matches at the head
of `l`; `getBaseAux` scans for the leftmost match position.
-/

/-- The literal characters of the extension `.csv` appended by the source. -/
def csvExt : List Char := ['.', 'c', 's', 'v']

/-- Does a 9-character window consist of an underscore followed by 8 digits?
Mirrors one candidate position of the regex `_` plus 8 digits. -/
def isDate9 (w : List Char) : Bool :=
  match w with
  | c :: ds => c == '_' && (ds.length == 8) && ds.all Char.isDigit
  | [] => false

/-- The regex matches at the head of `l`. -/
def dateHere (l : List Char) : Bool := isDate9 (l.take 9)

/-- Leftmost-match scan of `re.search`: returns the normalized character list
(prefix before the match followed by `.csv`) when a match exists. -/
def getBaseAux : List Char → Option (List Char)
  | [] => none
  | c :: rest =>
    if dateHere (c :: rest) then some csvExt
    else (getBaseAux rest).map (fun r => c :: r)

/-- Character-list form of `_get_base_filename`. -/
def normalizeList (l : List Char) : List Char := (getBaseAux l).getD l

/-- `_get_base_filename` of the source (named `normalize` in the spec). -/
def normalize (s : String) : String := ⟨normalizeList s.data⟩

/-! ## DDL rewrite (`ingest_data`, source lines 300-305)

The source runs `re.sub` on the DDL text with the pattern `CREATE` followed by
one or more whitespace characters followed by `TABLE`, case-insensitively,
with replacement count 1.  `headMatchCT l` decides whether the pattern matches
at the head of `l` and returns the length of the match; `subFirstCT` replaces
the leftmost match only.
-/

/-- Case-insensitive match of a lowercase pattern against the head of a text:
each text character is lowercased before comparison. -/
def lowHead : List Char → List Char → Bool
  | [], _ => true
  | _ :: _, [] => false
  | p :: ps, c :: cs => (c.toLower == p) && lowHead ps cs

/-- The whitespace characters matched by the regex whitespace class on the
ASCII inputs the pipeline handles. -/
def isPySpace (c : Char) : Bool :=
  c == ' ' || c == '\t' || c == '\n' || c == '\r' || c == '\x0b' || c == '\x0c'

/-- The table-creation pattern matched at the head of `l`: `CREATE`
(case-insensitive), one or more whitespace characters, then `TABLE`
(case-insensitive).  Returns the length of the matched span. -/
def headMatchCT (l : List Char) : Option Nat :=
  if lowHead "create".data l then
    let rest := l.drop 6
    let w := (rest.takeWhile isPySpace).length
    if 1 ≤ w ∧ lowHead "table".data (rest.drop w) = true then some (6 + w + 5)
    else none
  else none

/-- Replace the leftmost occurrence of the table-creation pattern by `repl`,
leaving everything else (including later occurrences) untouched.  This is the
count-1 substitution of the source. -/
def subFirstCT (repl : List Char) : List Char → List Char
  | [] => []
  | c :: rest =>
    match headMatchCT (c :: rest) with
    | some n => repl ++ (c :: rest).drop n
    | none => c :: subFirstCT repl rest

/-- Replacement text used in full-refresh mode (source line 301). -/
def createOrReplace : List Char := "CREATE OR REPLACE TABLE".data

/-- Replacement text used in incremental mode (source line 304). -/
def createIfNotExists : List Char := "CREATE TABLE IF NOT EXISTS".data

/-- The DDL rewrite of `ingest_data`: full refresh substitutes
force-recreate semantics, incremental substitutes create-if-absent
semantics; in both cases only the first occurrence is replaced. -/
def rewriteDDL (isFullRefresh : Bool) (s : String) : String :=
  ⟨subFirstCT (if isFullRefresh then createOrReplace else createIfNotExists) s.data⟩

/-! ## Data model of the orchestrator

`Config` mirrors the environment variables read in `__init__` (lines 30-50):
each variable is `Option String` (`os.getenv` returns `None` when unset).
`Env` is the oracle for every external effect of a run: the persisted ledger
file, the directory listing, schema-file existence and contents, and the
success of the warehouse connection, object-store uploads, SQL statements and
bulk loads, plus the per-iteration clock readings.
-/

/-- One value of the `file_to_table_map` dictionary (lines 53-72). -/
structure TableInfo where
  tableName : String
  schemaFile : String
deriving DecidableEq, Repr

/-- The static `file_to_table_map` dictionary (lines 53-72). -/
def fileToTableMap : List (String × TableInfo) :=
  [("genome-scores.csv", ⟨"raw_genome_scores", "raw_genome_scores.sql"⟩),
   ("genome-tags.csv", ⟨"raw_genome_tags", "raw_genome_tags.sql"⟩),
   ("links.csv", ⟨"raw_links", "raw_links.sql"⟩),
   ("movies.csv", ⟨"raw_movies", "raw_movies.sql"⟩),
   ("ratings.csv", ⟨"raw_ratings", "raw_ratings.sql"⟩),
   ("tags.csv", ⟨"raw_tags", "raw_tags.sql"⟩)]

/-- Configuration read in `__init__` (lines 30-50). -/
structure Config where
  sfAccount : Option String
  sfUser : Option String
  sfPassword : Option String
  sfWarehouse : Option String
  sfDatabase : Option String
  sfSchemaRaw : Option String
  sfRawTable : Option String
  s3Bucket : Option String
  s3PrefixRaw : Option String
  snowflakeStageName : Option String
  awsAccessKeyId : Option String
  awsSecretAccessKey : Option String
  awsRegion : Option String
  schemaFolder : String
  dataFolder : String
deriving DecidableEq, Repr

/-- Rendering of an optional string inside a Python f-string: `None` prints
as the four characters `None`. -/
def pyStr : Option String → String
  | none => "None"
  | some s => s

/-- Python truthiness of an optional string (`if not value`): unset and empty
both count as missing. -/
def truthy : Option String → Bool
  | none => false
  | some s => s ≠ ""

/-- `_validate_config` (lines 77-98): the names of the required variables
whose values are falsy, in source order. -/
def missingVars (cfg : Config) : List String :=
  ([("SNOWFLAKE_ACCOUNT", cfg.sfAccount),
    ("SNOWFLAKE_USER", cfg.sfUser),
    ("SNOWFLAKE_PASSWORD", cfg.sfPassword),
    ("SNOWFLAKE_WAREHOUSE", cfg.sfWarehouse),
    ("SNOWFLAKE_DATABASE", cfg.sfDatabase),
    ("SNOWFLAKE_SCHEMA_RAW", cfg.sfSchemaRaw),
    ("S3_BUCKET", cfg.s3Bucket),
    ("S3_PREFIX", cfg.s3PrefixRaw),
    ("SNOWFLAKE_STAGE_NAME", cfg.snowflakeStageName),
    ("AWS_ACCESS_KEY_ID", cfg.awsAccessKeyId),
    ("AWS_SECRET_ACCESS_KEY", cfg.awsSecretAccessKey),
    ("AWS_REGION", cfg.awsRegion)].filter (fun nv => !(truthy nv.2))).map Prod.fst

/-- `_validate_config` succeeds exactly when no required variable is missing
(it raises `ValueError` otherwise). -/
def validateConfigOk (cfg : Config) : Bool := (missingVars cfg).isEmpty

/-- Oracle for the external world of one run. -/
structure Env where
  /-- Contents of `processed_files.log` as a list of lines, `none` when the
  file does not exist (`_get_processed_files`, lines 191-198). -/
  ledgerFile : Option (List String)
  /-- The unsorted result of the `glob` directory listing (line 236). -/
  localFiles : List String
  /-- Whether a schema-definition file exists at a path (line 277). -/
  sqlScriptExists : String → Bool
  /-- Contents of a schema-definition file (line 298). -/
  sqlContent : String → String
  /-- Whether `_get_snowflake_connection` succeeds (line 241). -/
  connectOk : Bool
  /-- Whether the object-store upload of a key succeeds (line 288). -/
  uploadOk : String → Bool
  /-- Whether executing a SQL statement succeeds (lines 294 and 308). -/
  execOk : String → Bool
  /-- Whether the bulk load of a staged key into a table succeeds
  (`_copy_into_snowflake`, line 312). -/
  copyOk : String → String → Bool
  /-- The formatted clock reading observed by the `k`-th work-list entry
  (line 282; the source reads the clock once per processed file). -/
  timestamps : Nat → String

/-- External actions of a run, in execution order. -/
inductive Event where
  | connect
  | connectFail
  | ledgerReset
  | upload (key : String)
  | uploadFail (key : String)
  | exec (sql : String)
  | execFail (sql : String)
  | copyInto (key : String) (table : String)
  | copyFail (key : String) (table : String)
  | commit (path : String)
  | skipped (path : String)
  | close
deriving DecidableEq, Repr

/-- State threaded through the per-file loop: the persisted ledger file and
the trace of external actions so far. -/
structure RunState where
  ledger : Option (List String)
  events : List Event
deriving DecidableEq, Repr

/-- Result of a whole run; `ok` is false when an exception propagates. -/
structure RunResult where
  ledger : Option (List String)
  events : List Event
  ok : Bool
deriving DecidableEq, Repr

/-- Lines of the ledger file, empty when the file does not exist. -/
def ledgerLines (o : Option (List String)) : List String := o.getD []

/-- `os.path.basename`: the part of a path after the final slash. -/
def basename (p : String) : String :=
  ⟨(p.data.reverse.takeWhile (fun c => c != '/')).reverse⟩

/-- `os.path.join` of the schema folder and a schema file name (line 275). -/
def sqlPathFor (cfg : Config) (ti : TableInfo) : String :=
  cfg.schemaFolder ++ "/" ++ ti.schemaFile

/-- The object key built on line 283:
`f-string of s3_prefix, timestamp, underscore, full_filename`. -/
def s3KeyFor (cfg : Config) (env : Env) (i : Nat) (name : String) : String :=
  pyStr cfg.s3PrefixRaw ++ env.timestamps i ++ "_" ++ name

/-- The `USE SCHEMA` statement built on line 293. -/
def useSchemaSql (cfg : Config) : String :=
  "USE SCHEMA " ++ pyStr cfg.sfSchemaRaw ++ ";"

/-- Summary of what happens to one work-list entry (loop body, lines
261-316): skipped on a mapping or schema-file miss, fatal when the upload or
any statement raises, success when everything up to the ledger append runs. -/
inductive Outcome where
  | skip
  | success
  | fatal
deriving DecidableEq, Repr

/-- The outcome of the loop body for the `i`-th work-list entry `path`,
following the source control flow: mapping lookup (line 268), schema-file
existence (line 277), upload (line 288), `USE SCHEMA` (line 294), rewritten
DDL (line 308), bulk load (line 312). -/
def fileOutcome (cfg : Config) (env : Env) (isFullRefresh : Bool) (i : Nat)
    (path : String) : Outcome :=
  let name := basename path
  match fileToTableMap.lookup (normalize name) with
  | none => Outcome.skip
  | some ti =>
    if env.sqlScriptExists (sqlPathFor cfg ti) = false then Outcome.skip
    else if env.uploadOk (s3KeyFor cfg env i name) = false then Outcome.fatal
    else if env.execOk (useSchemaSql cfg) = false then Outcome.fatal
    else if env.execOk (rewriteDDL isFullRefresh (env.sqlContent (sqlPathFor cfg ti))) = false
      then Outcome.fatal
    else if env.copyOk (s3KeyFor cfg env i name) ti.tableName = false then Outcome.fatal
    else Outcome.success

/-- The external actions performed by the loop body for the `i`-th work-list
entry, in source order, cut off at the first failing call. -/
def stepEvents (cfg : Config) (env : Env) (isFullRefresh : Bool) (i : Nat)
    (path : String) : List Event :=
  let name := basename path
  match fileToTableMap.lookup (normalize name) with
  | none => [Event.skipped path]
  | some ti =>
    if env.sqlScriptExists (sqlPathFor cfg ti) = false then [Event.skipped path]
    else
      let key := s3KeyFor cfg env i name
      let ddl := rewriteDDL isFullRefresh (env.sqlContent (sqlPathFor cfg ti))
      if env.uploadOk key = false then [Event.uploadFail key]
      else if env.execOk (useSchemaSql cfg) = false then
        [Event.upload key, Event.execFail (useSchemaSql cfg)]
      else if env.execOk ddl = false then
        [Event.upload key, Event.exec (useSchemaSql cfg), Event.execFail ddl]
      else if env.copyOk key ti.tableName = false then
        [Event.upload key, Event.exec (useSchemaSql cfg), Event.exec ddl,
         Event.copyFail key ti.tableName]
      else
        [Event.upload key, Event.exec (useSchemaSql cfg), Event.exec ddl,
         Event.copyInto key ti.tableName, Event.commit path]

/-- The per-file loop of `ingest_data` (lines 261-316): sequential, one file
at a time; the ledger is appended to exactly on full success
(`_log_processed_file`, line 315); the first fatal outcome stops the loop
with the exception propagating (`ok = false`). -/
def runLoop (cfg : Config) (env : Env) (isFullRefresh : Bool) :
    RunState → Nat → List String → RunState × Bool
  | st, _, [] => (st, true)
  | st, i, p :: ps =>
    let st' : RunState :=
      { ledger := if fileOutcome cfg env isFullRefresh i p = Outcome.success
                  then some (ledgerLines st.ledger ++ [p]) else st.ledger,
        events := st.events ++ stepEvents cfg env isFullRefresh i p }
    if fileOutcome cfg env isFullRefresh i p = Outcome.fatal then (st', false)
    else runLoop cfg env isFullRefresh st' (i + 1) ps

/-- Lexicographic comparison of paths by character code points, the order
used by the sort on line 236.  (Stated on the character lists, where it is
computable by the kernel; `strLeData_iff` below identifies it with the
lexicographic order on `String`.) -/
def strLeData (a b : String) : Prop := ¬ b.data < a.data

instance : DecidableRel strLeData := fun _ _ => instDecidableNot

/-- `sorted(glob.glob(...))` (line 236): the candidate files in lexicographic
order. -/
def discover (env : Env) : List String :=
  List.insertionSort strLeData env.localFiles

/-- The planned work set (lines 243-253): everything on full refresh, the
files absent from the ledger set otherwise. -/
def workSet (isFullRefresh : Bool) (env : Env) : List String :=
  if isFullRefresh then discover env
  else (discover env).filter (fun f => !((ledgerLines env.ledgerFile).contains f))

/-- `ingest_data` (lines 226-324).  The ledger is read and the directory
listed, then the connection is acquired inside `try`; on full refresh the
log file is deleted and recreated empty; an empty work set returns early;
otherwise the loop runs; `finally` closes the connection whenever one was
obtained, whether the run completed or an exception propagates. -/
def ingestData (cfg : Config) (env : Env) (isFullRefresh : Bool) : RunResult :=
  if env.connectOk then
    let ledger0 := if isFullRefresh then some ([] : List String) else env.ledgerFile
    let ev0 := if isFullRefresh then [Event.connect, Event.ledgerReset] else [Event.connect]
    let work := workSet isFullRefresh env
    if work.isEmpty then
      { ledger := ledger0, events := ev0 ++ [Event.close], ok := true }
    else
      let r := runLoop cfg env isFullRefresh { ledger := ledger0, events := ev0 } 0 work
      { ledger := r.1.ledger, events := r.1.events ++ [Event.close], ok := r.2 }
  else
    { ledger := env.ledgerFile, events := [Event.connectFail], ok := false }

/-! ## Loop invariants -/

/-- The files the loop commits to the ledger, scanning from index `i` and
stopping at the first fatal entry (the loop aborts there). -/
def successList (cfg : Config) (env : Env) (isFullRefresh : Bool) :
    Nat → List String → List String
  | _, [] => []
  | i, p :: ps =>
    match fileOutcome cfg env isFullRefresh i p with
    | Outcome.success => p :: successList cfg env isFullRefresh (i + 1) ps
    | Outcome.skip => successList cfg env isFullRefresh (i + 1) ps
    | Outcome.fatal => []

/-- No entry of the work list, scanned from index `i`, has a fatal outcome. -/
def noFatalB (cfg : Config) (env : Env) (isFullRefresh : Bool) :
    Nat → List String → Bool
  | _, [] => true
  | i, p :: ps =>
    if fileOutcome cfg env isFullRefresh i p = Outcome.fatal then false
    else noFatalB cfg env isFullRefresh (i + 1) ps

/-- The keys of the successfully staged objects recorded in a trace. -/
def uploadKeys : List Event → List String
  | [] => []
  | Event.upload k :: es => k :: uploadKeys es
  | _ :: es => uploadKeys es

/-! ## Concrete fixtures used by the witnesses and counterexamples -/

/-- A fully populated configuration with key prefix `p/`. -/
def cfgA : Config :=
  { sfAccount := some "acct", sfUser := some "user", sfPassword := some "pw",
    sfWarehouse := some "wh", sfDatabase := some "db", sfSchemaRaw := some "RAW",
    sfRawTable := some "raw", s3Bucket := some "bucket", s3PrefixRaw := some "p/",
    snowflakeStageName := some "stage", awsAccessKeyId := some "id",
    awsSecretAccessKey := some "secret", awsRegion := some "eu-central-1",
    schemaFolder := "sql/tables", dataFolder := "data" }

/-- Oracle in which every external call succeeds except the upload of the
movies file, and the clock always reads `T0`. -/
def envA : Env :=
  { ledgerFile := none, localFiles := [],
    sqlScriptExists := fun _ => true,
    sqlContent := fun _ => "CREATE TABLE t (x INT);",
    connectOk := true,
    uploadOk := fun k => k != "p/T0_movies.csv",
    execOk := fun _ => true,
    copyOk := fun _ _ => true,
    timestamps := fun _ => "T0" }

/-- Oracle in which everything succeeds, two mapped files are present, and
the clock readings of the two loop iterations differ (`A`, then `B`). -/
def envC : Env :=
  { ledgerFile := none, localFiles := ["movies.csv", "ratings.csv"],
    sqlScriptExists := fun _ => true,
    sqlContent := fun _ => "CREATE TABLE t (x INT);",
    connectOk := true,
    uploadOk := fun _ => true,
    execOk := fun _ => true,
    copyOk := fun _ _ => true,
    timestamps := fun i => if i == 0 then "A" else "B" }

/-- `cfgA` with the key prefix variable unset. -/
def cfg8 : Config := { cfgA with s3PrefixRaw := none }

/-- `envC` with a fixed clock reading. -/
def env8 : Env := { envC with localFiles := ["movies.csv"], timestamps := fun _ => "20240101000000" }

/-- `envC` with a failing connection and an existing ledger. -/
def envD : Env := { envC with connectOk := false, ledgerFile := some ["old.csv"] }

/-! ## Lemmas and claim theorems -/

lemma isDate9_length {w : List Char} (h : isDate9 w = true) : w.length = 9 := by
  cases w with
  | nil => simp [isDate9] at h
  | cons c ds =>
    simp only [isDate9, Bool.and_eq_true, beq_iff_eq] at h
    simp [h.1.2]

lemma isDate9_mem {w : List Char} (h : isDate9 w = true) :
    ∀ c ∈ w, c = '_' ∨ c.isDigit = true := by
  cases w with
  | nil => simp [isDate9] at h
  | cons c ds =>
    simp only [isDate9, Bool.and_eq_true, beq_iff_eq] at h
    intro x hx
    rcases List.mem_cons.mp hx with hx | hx
    · exact Or.inl (hx.trans h.1.1)
    · exact Or.inr (List.all_eq_true.mp h.2 x hx)

lemma dateHere_nil : dateHere [] = false := by decide

lemma dateHere_length {l : List Char} (h : dateHere l = true) : 9 ≤ l.length := by
  have := isDate9_length (w := l.take 9) h
  simp only [List.length_take] at this
  omega

/-- If the leftmost regex match is at position `i`, the scan returns the
prefix before `i` followed by `.csv`. -/
lemma getBaseAux_eq_some_of :
    ∀ (i : Nat) (l : List Char), dateHere (l.drop i) = true →
      (∀ j, j < i → dateHere (l.drop j) = false) →
      getBaseAux l = some (l.take i ++ csvExt) := by
  intro i
  induction i with
  | zero =>
    intro l hi _
    cases l with
    | nil => simp [dateHere_nil] at hi
    | cons c rest => simp [getBaseAux, List.drop] at hi ⊢; simp [hi]
  | succ i ih =>
    intro l hi hmin
    cases l with
    | nil => simp [dateHere_nil] at hi
    | cons c rest =>
      have h0 : dateHere (c :: rest) = false := by
        simpa using hmin 0 (Nat.succ_pos i)
      have hi' : dateHere (rest.drop i) = true := by
        simpa [List.drop_succ_cons] using hi
      have hmin' : ∀ j, j < i → dateHere (rest.drop j) = false := by
        intro j hj
        simpa [List.drop_succ_cons] using hmin (j + 1) (Nat.succ_lt_succ hj)
      simp [getBaseAux, h0, ih rest hi' hmin', List.take_succ_cons]

/-- If the regex matches nowhere, the scan finds nothing. -/
lemma getBaseAux_eq_none_of :
    ∀ (l : List Char), (∀ j, dateHere (l.drop j) = false) → getBaseAux l = none := by
  intro l
  induction l with
  | nil => intro _; rfl
  | cons c rest ih =>
    intro h
    have h0 : dateHere (c :: rest) = false := by simpa using h 0
    have ht : ∀ j, dateHere (rest.drop j) = false := by
      intro j; simpa [List.drop_succ_cons] using h (j + 1)
    simp [getBaseAux, h0, ih ht]

/-- Converse: a failed scan means the regex matches at no position. -/
lemma getBaseAux_none_shape :
    ∀ (l : List Char), getBaseAux l = none → ∀ j, dateHere (l.drop j) = false := by
  intro l
  induction l with
  | nil => intro _ j; simp [dateHere_nil]
  | cons c rest ih =>
    intro h j
    cases h0 : dateHere (c :: rest) with
    | true => simp [getBaseAux, h0] at h
    | false =>
      have hE : getBaseAux (c :: rest) = (getBaseAux rest).map (fun r => c :: r) := by
        simp [getBaseAux, h0]
      rw [hE, Option.map_eq_none'] at h
      cases j with
      | zero => simpa using h0
      | succ j => simpa [List.drop_succ_cons] using ih h j

/-- A successful scan decomposes the input around the leftmost match. -/
lemma getBaseAux_some_shape :
    ∀ (l r : List Char), getBaseAux l = some r →
      ∃ i, i + 9 ≤ l.length ∧ dateHere (l.drop i) = true ∧
        (∀ j, j < i → dateHere (l.drop j) = false) ∧ r = l.take i ++ csvExt := by
  intro l
  induction l with
  | nil => intro r h; simp [getBaseAux] at h
  | cons c rest ih =>
    intro r h
    by_cases h0 : dateHere (c :: rest) = true
    · refine ⟨0, ?_, by simpa using h0, by intro j hj; omega, ?_⟩
      · have := dateHere_length h0; simpa using this
      · simp [getBaseAux, h0] at h; simp [h.symm]
    · have h0' : dateHere (c :: rest) = false := by
        cases hb : dateHere (c :: rest) with
        | true => exact absurd hb h0
        | false => rfl
      have hE : getBaseAux (c :: rest) = (getBaseAux rest).map (fun r => c :: r) := by
        simp [getBaseAux, h0']
      rw [hE, Option.map_eq_some'] at h
      obtain ⟨r', hr', hr⟩ := h
      obtain ⟨i, hlen, hi, hmin, hshape⟩ := ih r' hr'
      refine ⟨i + 1, by simpa using Nat.succ_le_succ hlen, ?_, ?_, ?_⟩
      · simpa [List.drop_succ_cons] using hi
      · intro j hj
        cases j with
        | zero => simpa using h0'
        | succ j => simpa [List.drop_succ_cons] using hmin j (by omega)
      · simp [← hr, hshape, List.take_succ_cons]

/-- After cutting at the leftmost match and appending `.csv`, the regex no
longer matches anywhere. -/
lemma noDate_of_base (l : List Char) (i : Nat) (hlen : i + 9 ≤ l.length)
    (hmin : ∀ j, j < i → dateHere (l.drop j) = false) :
    ∀ j, dateHere ((l.take i ++ csvExt).drop j) = false := by
  intro j
  by_contra hcontra
  have h : dateHere ((l.take i ++ csvExt).drop j) = true := by
    cases hb : dateHere ((l.take i ++ csvExt).drop j) with
    | true => rfl
    | false => exact absurd hb hcontra
  have hp : (l.take i).length = i := by
    simp [List.length_take]; omega
  have hw : isDate9 (((l.take i ++ csvExt).drop j).take 9) = true := h
  have hwlen : (((l.take i ++ csvExt).drop j).take 9).length = 9 := isDate9_length hw
  have hdrop : (l.take i ++ csvExt).drop j
      = (l.take i).drop j ++ csvExt.drop (j - (l.take i).length) :=
    List.drop_append_eq_append_drop
  by_cases hji : j < i
  · -- the match window would start inside the prefix
    have hdropj : j - (l.take i).length = 0 := by omega
    have hdrop' : (l.take i ++ csvExt).drop j = (l.take i).drop j ++ csvExt := by
      rw [hdrop, hdropj]; rfl
    have hm : ((l.take i).drop j).length = i - j := by
      rw [List.length_drop, hp]
    by_cases h9 : 9 ≤ i - j
    · -- entire window inside the prefix: contradicts minimality of `i`
      have htake : ((l.take i).drop j ++ csvExt).take 9 = ((l.take i).drop j).take 9 := by
        rw [List.take_append_eq_append_take]
        have h90 : 9 - ((l.take i).drop j).length = 0 := by rw [hm]; omega
        rw [h90]
        simp
      have hdt : (l.take i).drop j = (l.drop j).take (i - j) := by
        rw [List.drop_take]
      have hwin : ((l.take i ++ csvExt).drop j).take 9 = (l.drop j).take 9 := by
        rw [hdrop', htake, hdt, List.take_take]
        congr 1; omega
      have : dateHere (l.drop j) = true := by
        simpa [dateHere, hwin] using hw
      exact absurd this (by simp [hmin j hji])
    · -- window overlaps the appended extension: a dot sits among the digits
      have hm9 : i - j < 9 := by omega
      have htake : ((l.take i).drop j ++ csvExt).take 9
          = (l.take i).drop j ++ csvExt.take (9 - (i - j)) := by
        rw [List.take_append_eq_append_take]
        congr 1
        · exact List.take_of_length_le (by omega)
        · congr 1; omega
      have hdot : '.' ∈ ((l.take i ++ csvExt).drop j).take 9 := by
        rw [hdrop', htake]
        refine List.mem_append_right _ ?_
        have : 9 - (i - j) = (9 - (i - j) - 1) + 1 := by omega
        rw [this]
        simp [csvExt, List.take_succ_cons]
      rcases isDate9_mem hw '.' hdot with hdot' | hdot' <;> simp at hdot'
  · -- the window starts at or after the extension: too short to hold 9 chars
    have hdropj : (l.take i).drop j = [] := by
      refine List.drop_eq_nil_of_le ?_; omega
    have : (((l.take i ++ csvExt).drop j).take 9).length ≤ 4 := by
      rw [hdrop, hdropj]
      simp only [List.nil_append, List.length_take, List.length_drop]
      have : csvExt.length = 4 := by decide
      omega
    omega

/-- C4: `normalize` searches for the leftmost substring made of an underscore
followed by 8 digits; when the leftmost match is at position `i` it returns
the prefix before `i` concatenated with `.csv`, and when no position matches
it returns its input unchanged.  (It is a total function by construction.) -/
theorem normalize_first_match_spec (s : String) :
    (∀ i, dateHere (s.data.drop i) = true →
        (∀ j, j < i → dateHere (s.data.drop j) = false) →
        (normalize s).data = s.data.take i ++ csvExt) ∧
    ((∀ j, dateHere (s.data.drop j) = false) → normalize s = s) := by
  constructor
  · intro i hi hmin
    simp [normalize, normalizeList, getBaseAux_eq_some_of i s.data hi hmin]
  · intro h
    have : getBaseAux s.data = none := getBaseAux_eq_none_of s.data h
    simp [normalize, normalizeList, this]

/-- Witness for C4 on the concrete filename `ratings_20240721.csv`: the
leftmost match is at position 7 and the result is `ratings.csv`. -/
theorem normalize_first_match_spec_witness :
    dateHere (("ratings_20240721.csv".data).drop 7) = true ∧
    (normalize "ratings_20240721.csv").data = ("ratings_20240721.csv".data).take 7 ++ csvExt :=
  ⟨by decide,
    (normalize_first_match_spec "ratings_20240721.csv").1 7 (by decide)
      (by decide)⟩

/-- C5: `normalize` is idempotent, and on any input where the date pattern
occurs the output ends in `.csv` and contains no remaining occurrence of the
underscore-followed-by-8-digits pattern. -/
theorem normalize_idempotent (s : String) :
    normalize (normalize s) = normalize s ∧
    ((∃ i, dateHere (s.data.drop i) = true) →
      (∃ p, (normalize s).data = p ++ csvExt) ∧
      ∀ j, dateHere ((normalize s).data.drop j) = false) := by
  cases h : getBaseAux s.data with
  | none =>
    have hdata : (normalize s) = s := by simp [normalize, normalizeList, h]
    constructor
    · simp [hdata]
    · rintro ⟨i, hi⟩
      have := getBaseAux_none_shape s.data h i
      simp [this] at hi
  | some r =>
    obtain ⟨i, hlen, hi, hmin, hshape⟩ := getBaseAux_some_shape s.data r h
    have hnorm : (normalize s).data = s.data.take i ++ csvExt := by
      simp [normalize, normalizeList, h, hshape]
    have hnone : ∀ j, dateHere (((s.data.take i) ++ csvExt).drop j) = false :=
      noDate_of_base s.data i hlen hmin
    constructor
    · have : getBaseAux (normalize s).data = none := by
        rw [hnorm]; exact getBaseAux_eq_none_of _ hnone
      show (⟨normalizeList (normalize s).data⟩ : String) = normalize s
      simp [normalizeList, this]
    · intro _
      refine ⟨⟨s.data.take i, hnorm⟩, ?_⟩
      intro j
      rw [hnorm]
      exact hnone j

/-- Witness for C5 at `ratings_20240721.csv`: the pattern occurrence at
position 7 is discharged concretely and idempotence is instantiated. -/
theorem normalize_idempotent_witness :
    normalize (normalize "ratings_20240721.csv") = normalize "ratings_20240721.csv" ∧
    ((∃ p, (normalize "ratings_20240721.csv").data = p ++ csvExt) ∧
      ∀ j, dateHere ((normalize "ratings_20240721.csv").data.drop j) = false) :=
  ⟨(normalize_idempotent "ratings_20240721.csv").1,
    (normalize_idempotent "ratings_20240721.csv").2 ⟨7, by decide⟩⟩

lemma headMatchCT_nil : headMatchCT [] = none := by decide

/-- C6: when the leftmost occurrence of the (case-insensitive) table-creation
clause starts at position `i` and spans `n` characters, the rewrite replaces
exactly that span — full refresh inserts `CREATE OR REPLACE TABLE`,
incremental inserts `CREATE TABLE IF NOT EXISTS` — and the text after the
match (hence every later occurrence) is kept verbatim. -/
theorem rewriteDDL_first_occurrence (isFullRefresh : Bool) :
    ∀ (i : Nat) (l : List Char) (n : Nat),
      headMatchCT (l.drop i) = some n →
      (∀ j, j < i → headMatchCT (l.drop j) = none) →
      (rewriteDDL isFullRefresh ⟨l⟩).data
        = l.take i ++ (if isFullRefresh then createOrReplace else createIfNotExists)
            ++ l.drop (i + n) := by
  intro i
  induction i with
  | zero =>
    intro l n hi _
    cases l with
    | nil => rw [List.drop_nil] at hi; rw [headMatchCT_nil] at hi; exact absurd hi (by simp)
    | cons c rest =>
      simp only [List.drop_zero] at hi
      simp [rewriteDDL, subFirstCT, hi]
  | succ i ih =>
    intro l n hi hmin
    cases l with
    | nil => rw [List.drop_nil] at hi; rw [headMatchCT_nil] at hi; exact absurd hi (by simp)
    | cons c rest =>
      have h0 : headMatchCT (c :: rest) = none := by
        simpa using hmin 0 (Nat.succ_pos i)
      have hi' : headMatchCT (rest.drop i) = some n := by
        simpa [List.drop_succ_cons] using hi
      have hmin' : ∀ j, j < i → headMatchCT (rest.drop j) = none := by
        intro j hj
        simpa [List.drop_succ_cons] using hmin (j + 1) (Nat.succ_lt_succ hj)
      have ihr := ih rest n hi' hmin'
      have harith : i + 1 + n = (i + n) + 1 := by omega
      simp only [rewriteDDL, subFirstCT, h0] at ihr ⊢
      rw [List.take_succ_cons, harith, List.drop_succ_cons]
      simp [ihr]

/-- Witness for C6 on concrete DDL text with a lowercase creation clause and a
second occurrence after it: only the first is rewritten. -/
theorem rewriteDDL_first_occurrence_witness :
    headMatchCT (("create table a (x INT); CREATE TABLE b (y INT);".data).drop 0) = some 12 ∧
    (rewriteDDL true ⟨"create table a (x INT); CREATE TABLE b (y INT);".data⟩).data
      = ("create table a (x INT); CREATE TABLE b (y INT);".data).take 0
          ++ createOrReplace
          ++ ("create table a (x INT); CREATE TABLE b (y INT);".data).drop (0 + 12) :=
  ⟨by decide,
    rewriteDDL_first_occurrence true 0 "create table a (x INT); CREATE TABLE b (y INT);".data 12
      (by decide) (by intro j hj; omega)⟩

lemma runLoop_ledgerLines (cfg : Config) (env : Env) (fr : Bool) :
    ∀ (ws : List String) (st : RunState) (i : Nat),
      ledgerLines (runLoop cfg env fr st i ws).1.ledger
        = ledgerLines st.ledger ++ successList cfg env fr i ws := by
  intro ws
  induction ws with
  | nil => intro st i; simp [runLoop, successList]
  | cons p ps ih =>
    intro st i
    rcases h : fileOutcome cfg env fr i p with _ | _ | _
    · simp [runLoop, successList, h, ih]
    · have hstep : runLoop cfg env fr st i (p :: ps)
          = runLoop cfg env fr
              { ledger := some (ledgerLines st.ledger ++ [p]),
                events := st.events ++ stepEvents cfg env fr i p } (i + 1) ps := by
        simp [runLoop, h]
      rw [hstep, ih]
      simp [successList, h, ledgerLines]
    · simp [runLoop, successList, h]

lemma runLoop_ok (cfg : Config) (env : Env) (fr : Bool) :
    ∀ (ws : List String) (st : RunState) (i : Nat),
      (runLoop cfg env fr st i ws).2 = noFatalB cfg env fr i ws := by
  intro ws
  induction ws with
  | nil => intro st i; simp [runLoop, noFatalB]
  | cons p ps ih =>
    intro st i
    rcases h : fileOutcome cfg env fr i p with _ | _ | _ <;>
      simp [runLoop, noFatalB, h, ih]

lemma noFatalB_cons_iff (cfg : Config) (env : Env) (fr : Bool) (i : Nat)
    (p : String) (ps : List String) :
    noFatalB cfg env fr i (p :: ps) = true ↔
      fileOutcome cfg env fr i p ≠ Outcome.fatal ∧
        noFatalB cfg env fr (i + 1) ps = true := by
  by_cases h : fileOutcome cfg env fr i p = Outcome.fatal <;> simp [noFatalB, h]

lemma noFatalB_append (cfg : Config) (env : Env) (fr : Bool) :
    ∀ (l1 l2 : List String) (i : Nat),
      noFatalB cfg env fr i (l1 ++ l2)
        = (noFatalB cfg env fr i l1 && noFatalB cfg env fr (i + l1.length) l2) := by
  intro l1
  induction l1 with
  | nil => intro l2 i; simp [noFatalB]
  | cons p ps ih =>
    intro l2 i
    by_cases h : fileOutcome cfg env fr i p = Outcome.fatal
    · simp [noFatalB, h]
    · simp only [List.cons_append, noFatalB, if_neg h, List.append_eq, ih]
      rw [show i + 1 + ps.length = i + (p :: ps).length by simp only [List.length_cons]; omega]

lemma successList_append (cfg : Config) (env : Env) (fr : Bool) :
    ∀ (l1 l2 : List String) (i : Nat), noFatalB cfg env fr i l1 = true →
      successList cfg env fr i (l1 ++ l2)
        = successList cfg env fr i l1 ++ successList cfg env fr (i + l1.length) l2 := by
  intro l1
  induction l1 with
  | nil => intro l2 i _; simp [successList]
  | cons p ps ih =>
    intro l2 i h
    obtain ⟨h1, h2⟩ := (noFatalB_cons_iff cfg env fr i p ps).mp h
    have hidx : i + 1 + ps.length = i + (p :: ps).length := by
      simp only [List.length_cons]; omega
    rcases ho : fileOutcome cfg env fr i p with _ | _ | _
    · have hih := ih l2 (i + 1) h2
      simp only [List.cons_append, successList, ho, List.append_eq, hih, hidx]
    · have hih := ih l2 (i + 1) h2
      simp only [List.cons_append, successList, ho, List.append_eq, hih, hidx]
    · exact absurd ho h1

lemma successList_subset (cfg : Config) (env : Env) (fr : Bool) :
    ∀ (ws : List String) (i : Nat) (q : String),
      q ∈ successList cfg env fr i ws → q ∈ ws := by
  intro ws
  induction ws with
  | nil => intro i q h; simp [successList] at h
  | cons p ps ih =>
    intro i q h
    rcases ho : fileOutcome cfg env fr i p with _ | _ | _ <;>
      simp only [successList, ho] at h
    · exact List.mem_cons_of_mem p (ih (i + 1) q h)
    · rcases List.mem_cons.mp h with h | h
      · exact h ▸ List.mem_cons_self p ps
      · exact List.mem_cons_of_mem p (ih (i + 1) q h)
    · simp at h

/-- Every committed file is a work-list entry whose outcome was success. -/
lemma successList_mem_shape (cfg : Config) (env : Env) (fr : Bool) :
    ∀ (ws : List String) (i : Nat) (q : String),
      q ∈ successList cfg env fr i ws →
      ∃ j, j < ws.length ∧ ws.getD j "" = q ∧
        fileOutcome cfg env fr (i + j) q = Outcome.success := by
  intro ws
  induction ws with
  | nil => intro i q h; simp [successList] at h
  | cons p ps ih =>
    intro i q h
    rcases ho : fileOutcome cfg env fr i p with _ | _ | _ <;>
      simp only [successList, ho] at h
    · obtain ⟨j, hj, hq, hs⟩ := ih (i + 1) q h
      exact ⟨j + 1, by simpa using Nat.succ_lt_succ hj, by simpa using hq,
        by rw [show i + (j + 1) = i + 1 + j by omega]; exact hs⟩
    · rcases List.mem_cons.mp h with h | h
      · subst h
        exact ⟨0, by simp, by simp, by simpa using ho⟩
      · obtain ⟨j, hj, hq, hs⟩ := ih (i + 1) q h
        exact ⟨j + 1, by simpa using Nat.succ_lt_succ hj, by simpa using hq,
          by rw [show i + (j + 1) = i + 1 + j by omega]; exact hs⟩
    · simp at h

/-- When the entries before `p` are not fatal and `p` is fatal, the loop on
`pre ++ p :: post` behaves exactly like the loop on `pre ++ [p]`: nothing
after `p` is attempted. -/
lemma runLoop_stop (cfg : Config) (env : Env) (fr : Bool) :
    ∀ (pre : List String) (st : RunState) (i : Nat) (p : String) (post : List String),
      noFatalB cfg env fr i pre = true →
      fileOutcome cfg env fr (i + pre.length) p = Outcome.fatal →
      runLoop cfg env fr st i (pre ++ p :: post)
        = runLoop cfg env fr st i (pre ++ [p]) := by
  intro pre
  induction pre with
  | nil =>
    intro st i p post _ hp
    simp only [List.length_nil, Nat.add_zero] at hp
    simp [runLoop, hp]
  | cons q pre ih =>
    intro st i p post h hp
    obtain ⟨h1, h2⟩ := (noFatalB_cons_iff cfg env fr i q pre).mp h
    have hp' : fileOutcome cfg env fr (i + 1 + pre.length) p = Outcome.fatal := by
      rw [show i + 1 + pre.length = i + (q :: pre).length by simp; omega]
      exact hp
    simp only [List.cons_append, runLoop, if_neg h1]
    exact ih _ (i + 1) p post h2 hp'

lemma uploadKeys_append : ∀ (a b : List Event),
    uploadKeys (a ++ b) = uploadKeys a ++ uploadKeys b := by
  intro a
  induction a with
  | nil => intro b; rfl
  | cons e es ih =>
    intro b
    cases e <;> simp [uploadKeys, ih]

/-- Every staged key produced by one loop-body step is the key built for that
iteration from the prefix, the clock reading, an underscore and the basename. -/
lemma uploadKeys_stepEvents (cfg : Config) (env : Env) (fr : Bool) (i : Nat)
    (p : String) :
    ∀ k ∈ uploadKeys (stepEvents cfg env fr i p), k = s3KeyFor cfg env i (basename p) := by
  intro k hk
  unfold stepEvents at hk
  rcases hl : fileToTableMap.lookup (normalize (basename p)) with _ | ti <;>
    simp only [hl] at hk
  · simp [uploadKeys] at hk
  · by_cases h1 : env.sqlScriptExists (sqlPathFor cfg ti) = false <;>
      simp only [h1, if_true, if_false] at hk
    · simp [uploadKeys] at hk
    · by_cases h2 : env.uploadOk (s3KeyFor cfg env i (basename p)) = false <;>
        simp only [h2, if_true, if_false] at hk
      · simp [uploadKeys] at hk
      · by_cases h3 : env.execOk (useSchemaSql cfg) = false <;>
          simp only [h3, if_true, if_false] at hk
        · simp [uploadKeys] at hk; exact hk
        · by_cases h4 : env.execOk (rewriteDDL fr (env.sqlContent (sqlPathFor cfg ti))) = false <;>
            simp only [h4, if_true, if_false] at hk
          · simp [uploadKeys] at hk; exact hk
          · by_cases h5 : env.copyOk (s3KeyFor cfg env i (basename p)) ti.tableName = false <;>
              simp only [h5, if_true, if_false] at hk <;>
              (simp [uploadKeys] at hk; exact hk)

/-- Every staged key of a whole loop run is either inherited from the starting
trace or is the per-iteration key of some work-list entry. -/
lemma runLoop_uploadKeys (cfg : Config) (env : Env) (fr : Bool) :
    ∀ (ws : List String) (st : RunState) (i : Nat),
      ∀ k ∈ uploadKeys (runLoop cfg env fr st i ws).1.events,
        k ∈ uploadKeys st.events ∨
          ∃ j, j < ws.length ∧ k = s3KeyFor cfg env (i + j) (basename (ws.getD j "")) := by
  intro ws
  induction ws with
  | nil => intro st i k hk; exact Or.inl hk
  | cons p ps ih =>
    intro st i k hk
    by_cases h : fileOutcome cfg env fr i p = Outcome.fatal
    · simp only [runLoop, if_pos h] at hk
      rw [uploadKeys_append] at hk
      rcases List.mem_append.mp hk with hk | hk
      · exact Or.inl hk
      · exact Or.inr ⟨0, by simp, by simpa using uploadKeys_stepEvents cfg env fr i p k hk⟩
    · simp only [runLoop, if_neg h] at hk
      rcases ih _ (i + 1) k hk with hk' | ⟨j, hj, hkey⟩
      · rw [uploadKeys_append] at hk'
        rcases List.mem_append.mp hk' with hk'' | hk''
        · exact Or.inl hk''
        · exact Or.inr ⟨0, by simp, by simpa using uploadKeys_stepEvents cfg env fr i p k hk''⟩
      · refine Or.inr ⟨j + 1, by simpa using Nat.succ_lt_succ hj, ?_⟩
        rw [show i + (j + 1) = i + 1 + j by omega]
        simpa using hkey

/-- C1: in a batch `pre ++ p :: post` where no entry of `pre` is fatal and
the staging, DDL or load of `p` fails, the run aborts (`ok = false`), the
persisted ledger gains exactly the identifiers of the fully successful
entries of `pre` (a commit happens only after staging and load succeed), `p`
is absent from the ledger, and the run is literally the run of `pre ++ [p]`:
no entry after `p` is attempted. -/
theorem ledger_commit_after_success (cfg : Config) (env : Env) (fr : Bool)
    (st : RunState) (i : Nat) (pre post : List String) (p : String)
    (hpre : noFatalB cfg env fr i pre = true)
    (hp : fileOutcome cfg env fr (i + pre.length) p = Outcome.fatal)
    (hnotLedger : p ∉ ledgerLines st.ledger) (hnotPre : p ∉ pre) :
    (runLoop cfg env fr st i (pre ++ p :: post)).2 = false ∧
    ledgerLines (runLoop cfg env fr st i (pre ++ p :: post)).1.ledger
      = ledgerLines st.ledger ++ successList cfg env fr i pre ∧
    p ∉ ledgerLines (runLoop cfg env fr st i (pre ++ p :: post)).1.ledger ∧
    (∀ q ∈ ledgerLines (runLoop cfg env fr st i (pre ++ p :: post)).1.ledger,
      q ∈ ledgerLines st.ledger ∨
        ∃ j, j < pre.length ∧ pre.getD j "" = q ∧
          fileOutcome cfg env fr (i + j) q = Outcome.success) ∧
    runLoop cfg env fr st i (pre ++ p :: post) = runLoop cfg env fr st i (pre ++ [p]) := by
  have hstop := runLoop_stop cfg env fr pre st i p post hpre hp
  have hok : (runLoop cfg env fr st i (pre ++ p :: post)).2 = false := by
    rw [hstop, runLoop_ok, noFatalB_append]
    simp [noFatalB, hp]
  have hledger : ledgerLines (runLoop cfg env fr st i (pre ++ p :: post)).1.ledger
      = ledgerLines st.ledger ++ successList cfg env fr i pre := by
    rw [hstop, runLoop_ledgerLines, successList_append cfg env fr pre [p] i hpre]
    simp [successList, hp]
  refine ⟨hok, hledger, ?_, ?_, hstop⟩
  · rw [hledger]
    intro hmem
    rcases List.mem_append.mp hmem with hmem | hmem
    · exact hnotLedger hmem
    · exact hnotPre (successList_subset cfg env fr pre i p hmem)
  · intro q hq
    rw [hledger] at hq
    rcases List.mem_append.mp hq with hq | hq
    · exact Or.inl hq
    · exact Or.inr (successList_mem_shape cfg env fr pre i q hq)

/-- C3: an entry `p` whose canonical name has no mapping, or whose mapped
schema file does not exist, is skipped without aborting the run and without a
ledger entry: provided no other entry is fatal the loop over
`pre ++ p :: post` completes with `ok`, and `p` never enters the ledger. -/
theorem skip_on_mapping_or_schema_miss (cfg : Config) (env : Env) (fr : Bool)
    (st : RunState) (i : Nat) (pre post : List String) (p : String)
    (hmiss : fileToTableMap.lookup (normalize (basename p)) = none ∨
      ∃ ti, fileToTableMap.lookup (normalize (basename p)) = some ti ∧
        env.sqlScriptExists (sqlPathFor cfg ti) = false)
    (hpre : noFatalB cfg env fr i pre = true)
    (hpost : noFatalB cfg env fr (i + pre.length + 1) post = true)
    (hnotLedger : p ∉ ledgerLines st.ledger) (hnotPre : p ∉ pre) (hnotPost : p ∉ post) :
    (runLoop cfg env fr st i (pre ++ p :: post)).2 = true ∧
    p ∉ ledgerLines (runLoop cfg env fr st i (pre ++ p :: post)).1.ledger := by
  have hskip : ∀ j, fileOutcome cfg env fr j p = Outcome.skip := by
    intro j
    rcases hmiss with hmiss | ⟨ti, hti, hex⟩
    · simp [fileOutcome, hmiss]
    · simp [fileOutcome, hti, hex]
  have hnf : noFatalB cfg env fr i (pre ++ p :: post) = true := by
    rw [noFatalB_append, hpre]
    simp only [Bool.true_and, noFatalB, hskip (i + pre.length)]
    rw [if_neg (by simp)]
    rw [show i + pre.length + 1 = i + pre.length + 1 by rfl] at hpost
    exact hpost
  constructor
  · rw [runLoop_ok]; exact hnf
  · rw [runLoop_ledgerLines, successList_append cfg env fr pre (p :: post) i hpre]
    intro hmem
    rcases List.mem_append.mp hmem with hmem | hmem
    · exact hnotLedger hmem
    · rcases List.mem_append.mp hmem with hmem | hmem
      · exact hnotPre (successList_subset cfg env fr pre i p hmem)
      · simp only [successList, hskip (i + pre.length)] at hmem
        exact hnotPost (successList_subset cfg env fr post (i + pre.length + 1) p hmem)

lemma strLeData_iff (a b : String) : strLeData a b ↔ a ≤ b := by
  rw [String.le_iff_toList_le]
  exact not_lt

instance : IsTotal String strLeData :=
  ⟨fun a b => by
    rcases le_total a b with h | h
    · exact Or.inl ((strLeData_iff a b).mpr h)
    · exact Or.inr ((strLeData_iff b a).mpr h)⟩

instance : IsTrans String strLeData :=
  ⟨fun a b c hab hbc =>
    (strLeData_iff a c).mpr
      (le_trans ((strLeData_iff a b).mp hab) ((strLeData_iff b c).mp hbc))⟩

/-- C2: discovery lists the candidate files in lexicographic order (a sorted
permutation of the raw listing); on full refresh the work set is all
discovered files and the persisted ledger is reset before processing, so the
final ledger holds exactly the files this run committed; on incremental the
work set is exactly the discovered files absent from the loaded ledger set,
and commits append to the existing ledger. -/
theorem plan_work_set (cfg : Config) (env : Env) (hconn : env.connectOk = true) :
    List.Sorted (fun a b : String => a ≤ b) (discover env) ∧
    (discover env).Perm env.localFiles ∧
    workSet true env = discover env ∧
    (∀ f, f ∈ workSet false env ↔ f ∈ discover env ∧ f ∉ ledgerLines env.ledgerFile) ∧
    ledgerLines (ingestData cfg env true).ledger
      = successList cfg env true 0 (workSet true env) ∧
    ledgerLines (ingestData cfg env false).ledger
      = ledgerLines env.ledgerFile ++ successList cfg env false 0 (workSet false env) := by
  refine ⟨?_, List.perm_insertionSort _ _, rfl, ?_, ?_, ?_⟩
  · exact (List.sorted_insertionSort strLeData env.localFiles).imp
      (fun h => (strLeData_iff _ _).mp h)
  · intro f
    simp [workSet, List.mem_filter]
  · by_cases hw : (workSet true env).isEmpty
    · have : workSet true env = [] := List.isEmpty_iff.mp hw
      simp [ingestData, hconn, hw, this, ledgerLines, successList]
    · simp only [ingestData, hconn, if_true, hw, if_false, Bool.false_eq_true]
      rw [runLoop_ledgerLines]
      simp [ledgerLines]
  · by_cases hw : (workSet false env).isEmpty
    · have : workSet false env = [] := List.isEmpty_iff.mp hw
      simp [ingestData, hconn, hw, this, ledgerLines, successList]
    · simp only [ingestData, hconn, if_true, hw, if_false, Bool.false_eq_true]
      rw [runLoop_ledgerLines]

/-- C9: whenever the warehouse connection is established, the trace ends with
the connection release, on every exit path (empty work set, completed loop,
or fatal abort). -/
theorem connection_always_released (cfg : Config) (env : Env) (fr : Bool)
    (hconn : env.connectOk = true) :
    (ingestData cfg env fr).events.getLast? = some Event.close := by
  by_cases hw : (workSet fr env).isEmpty
  · simp [ingestData, hconn, hw, List.getLast?_concat]
  · simp [ingestData, hconn, hw, List.getLast?_concat]

/-- C10: when establishing the connection fails, the run aborts with the
persisted ledger untouched — in particular the full-refresh ledger reset does
not happen, because it is sequenced after the connection attempt. -/
theorem connect_failure_preserves_ledger (cfg : Config) (env : Env) (fr : Bool)
    (hconn : env.connectOk = false) :
    (ingestData cfg env fr).ledger = env.ledgerFile ∧
    (ingestData cfg env fr).ok = false := by
  simp [ingestData, hconn]

/-- Amended C7: every key under which a run stages a file is
`s3KeyFor`, i.e. the configured key prefix, then the clock reading of that
own loop iteration of that entry, then an underscore, then the original
basename.
The clock is read once per file, not once per run. -/
theorem staging_key_shape (cfg : Config) (env : Env) (fr : Bool) (k : String)
    (hk : k ∈ uploadKeys (ingestData cfg env fr).events) :
    ∃ j, j < (workSet fr env).length ∧
      k = s3KeyFor cfg env j (basename ((workSet fr env).getD j "")) := by
  by_cases hconn : env.connectOk = true
  · by_cases hw : (workSet fr env).isEmpty
    · exfalso
      revert hk
      cases fr <;> simp [ingestData, hconn, hw, uploadKeys_append, uploadKeys]
    · have hk' : k ∈ uploadKeys
          (runLoop cfg env fr
            { ledger := if fr then some ([] : List String) else env.ledgerFile,
              events := if fr then [Event.connect, Event.ledgerReset] else [Event.connect] }
            0 (workSet fr env)).1.events := by
        revert hk
        simp only [ingestData, hconn, if_true, hw, if_false, Bool.false_eq_true]
        rw [uploadKeys_append]
        cases fr <;> simp [uploadKeys]
      rcases runLoop_uploadKeys cfg env fr (workSet fr env) _ 0 k hk' with hmem | ⟨j, hj, hkey⟩
      · exfalso
        revert hmem
        cases fr <;> simp [uploadKeys]
      · exact ⟨j, hj, by simpa using hkey⟩
  · exfalso
    have : env.connectOk = false := by
      cases hb : env.connectOk with
      | true => exact absurd hb hconn
      | false => rfl
    revert hk
    simp [ingestData, this, uploadKeys]

/-- Witness for C1: with the upload of `movies.csv` failing after a
successful `links.csv`, the batch run aborts and `movies.csv` is absent from
the ledger. -/
theorem ledger_commit_after_success_witness :
    noFatalB cfgA envA false 0 ["links.csv"] = true ∧
    fileOutcome cfgA envA false (0 + (["links.csv"] : List String).length) "movies.csv"
      = Outcome.fatal ∧
    (runLoop cfgA envA false ⟨none, []⟩ 0 (["links.csv"] ++ "movies.csv" :: ["ratings.csv"])).2
      = false ∧
    "movies.csv" ∉ ledgerLines
      (runLoop cfgA envA false ⟨none, []⟩ 0
        (["links.csv"] ++ "movies.csv" :: ["ratings.csv"])).1.ledger :=
  ⟨by decide, by decide,
    (ledger_commit_after_success cfgA envA false ⟨none, []⟩ 0 ["links.csv"] ["ratings.csv"]
      "movies.csv" (by decide) (by decide) (by decide) (by decide)).1,
    (ledger_commit_after_success cfgA envA false ⟨none, []⟩ 0 ["links.csv"] ["ratings.csv"]
      "movies.csv" (by decide) (by decide) (by decide) (by decide)).2.2.1⟩

/-- Witness for C3: `unknown_file.csv` has no mapping entry, the run
completes, and the ledger receives no entry for it. -/
theorem skip_on_mapping_or_schema_miss_witness :
    fileToTableMap.lookup (normalize (basename "unknown_file.csv")) = none ∧
    (runLoop cfgA envC false ⟨none, []⟩ 0
      (["links.csv"] ++ "unknown_file.csv" :: ["ratings.csv"])).2 = true ∧
    "unknown_file.csv" ∉ ledgerLines
      (runLoop cfgA envC false ⟨none, []⟩ 0
        (["links.csv"] ++ "unknown_file.csv" :: ["ratings.csv"])).1.ledger :=
  ⟨by decide,
    (skip_on_mapping_or_schema_miss cfgA envC false ⟨none, []⟩ 0 ["links.csv"] ["ratings.csv"]
      "unknown_file.csv" (Or.inl (by decide)) (by decide) (by decide) (by decide) (by decide)
      (by decide)).1,
    (skip_on_mapping_or_schema_miss cfgA envC false ⟨none, []⟩ 0 ["links.csv"] ["ratings.csv"]
      "unknown_file.csv" (Or.inl (by decide)) (by decide) (by decide) (by decide) (by decide)
      (by decide)).2⟩

/-- Witness for C2 on a concrete environment: full refresh ends with the
ledger holding exactly the files committed by this run. -/
theorem plan_work_set_witness :
    envC.connectOk = true ∧
    ledgerLines (ingestData cfgA envC true).ledger
      = successList cfgA envC true 0 (workSet true envC) :=
  ⟨by decide, (plan_work_set cfgA envC (by decide)).2.2.2.2.1⟩

/-- Witness for C9: a run on a concrete environment ends by releasing the
connection. -/
theorem connection_always_released_witness :
    envC.connectOk = true ∧
    (ingestData cfgA envC false).events.getLast? = some Event.close :=
  ⟨by decide, connection_always_released cfgA envC false (by decide)⟩

/-- Witness for C10: with the connection failing, a full-refresh run leaves
the pre-existing ledger file intact. -/
theorem connect_failure_preserves_ledger_witness :
    envD.connectOk = false ∧
    (ingestData cfgA envD true).ledger = some ["old.csv"] ∧
    (ingestData cfgA envD true).ok = false :=
  ⟨by decide, (connect_failure_preserves_ledger cfgA envD true (by decide)).1,
    (connect_failure_preserves_ledger cfgA envD true (by decide)).2⟩

/-- Counterexample to C7 as stated: on a run whose two iterations read
clocks `A` and `B`, the staged keys are `p/A_movies.csv` and
`p/B_ratings.csv` — an underscore is interposed between the timestamp and
the filename (the key differs from prefix ++ timestamp ++ filename), and the
two keys of the same run embed different timestamps. -/
theorem staging_key_counterexample :
    uploadKeys (ingestData cfgA envC false).events = ["p/A_movies.csv", "p/B_ratings.csv"] ∧
    "p/A_movies.csv" = pyStr cfgA.s3PrefixRaw ++ envC.timestamps 0 ++ "_" ++ "movies.csv" ∧
    "p/A_movies.csv" ≠ pyStr cfgA.s3PrefixRaw ++ envC.timestamps 0 ++ "movies.csv" ∧
    "p/B_ratings.csv" = pyStr cfgA.s3PrefixRaw ++ envC.timestamps 1 ++ "_" ++ "ratings.csv" ∧
    envC.timestamps 0 ≠ envC.timestamps 1 := by decide

/-- Witness for the amended C7: the concrete staged key `p/A_movies.csv`
has the per-iteration `s3KeyFor` shape. -/
theorem staging_key_shape_witness :
    "p/A_movies.csv" ∈ uploadKeys (ingestData cfgA envC false).events ∧
    ∃ j, j < (workSet false envC).length ∧
      "p/A_movies.csv" = s3KeyFor cfgA envC j (basename ((workSet false envC).getD j "")) :=
  ⟨by decide, staging_key_shape cfgA envC false "p/A_movies.csv" (by decide)⟩

/-- C8 (code defect): `_validate_config` exists but is never invoked, so a
missing required setting is not a fatal startup error: with `S3_PREFIX_RAW`
unset, validation would fail, yet the run proceeds and stages the file under
a key rendering the absent prefix as the text `None`. -/
theorem missing_config_not_fatal :
    validateConfigOk cfg8 = false ∧
    missingVars cfg8 = ["S3_PREFIX"] ∧
    (ingestData cfg8 env8 false).ok = true ∧
    uploadKeys (ingestData cfg8 env8 false).events = ["None20240101000000_movies.csv"] := by
  decide

end DBRawIngestion
